import Mathlib

/-!
Verification of the Hyper-Desk client agent (`src/main.go`).

The agent logs in to a remote collector, then every 5 minutes runs
`pvesh get /cluster/resources`, converts the memory fields by `/(1024*1024)`
and the disk fields by `/(1024*1024*1024)`, rounds each to two decimal places
by formatting with `fmt.Sprintf("%.2f", ·)` and re-parsing with
`strconv.ParseFloat`, keeps only records of type `"qemu"` or `"lxc"`, and
POSTs the resulting batch.

Numeric model: the `float64` quantities that flow through the pipeline are
embedded as exact rationals (`ℚ`).  The division steps are exact, and the
two-decimal rounding step is modelled textually, exactly as the code performs
it: a formatter producing the decimal numeral with two fractional digits
(correctly rounded, ties to even — the rounding Go's `strconv` applies for
fixed-precision formatting) followed by a decimal-numeral parser, so that the
"format, then parse back" contract is visible in the model itself.
-/

/-- Embeds the Go struct `VMInfo` (`src/main.go:18`).  The Go field `Type`
is rendered `Type'` because `Type` is a Lean keyword; `float64` fields are
embedded as `ℚ`. -/
structure VMInfo where
  UserID : String
  Name : String
  VMID : Int
  Type' : String
  Status : String
  CPU : ℚ
  MaxCPU : Int
  Mem : ℚ
  MaxMem : ℚ
  Disk : ℚ
  MaxDisk : ℚ
deriving DecidableEq, Repr

/-- Embeds the Go struct `LoginResponse` (`src/main.go:33`). -/
structure LoginResponse where
  UserID : String
  AccessToken : String
  RefreshToken : String
deriving DecidableEq, Repr

/-- Embeds the Go struct `LoginCredentials` (`src/main.go:40`). -/
structure LoginCredentials where
  ID : String
  Password : String
deriving DecidableEq, Repr

/-- Embeds the Go struct `Response` (`src/main.go:46`): the batch sent to the
collector, a user id plus an ordered list of records. -/
structure Response where
  UserId : String
  Vms : List VMInfo
deriving DecidableEq, Repr

/-- Round a rational to the nearest integer, ties to even: the rounding Go's
`strconv` applies to the last kept digit when formatting with a fixed
precision such as `%.2f`. -/
def roundHalfEven (q : ℚ) : ℤ :=
  let f : ℤ := ⌊q⌋
  let r : ℚ := q - f
  if r < 1/2 then f
  else if 1/2 < r then f + 1
  else if f % 2 = 0 then f else f + 1

/-- Base-10 digits of `n`, least significant first, with explicit fuel so the
definition reduces in the kernel; `natDigits` instantiates the fuel. -/
def natDigitsRev : ℕ → ℕ → List ℕ
  | 0, _ => []
  | _, 0 => []
  | fuel + 1, n + 1 => ((n + 1) % 10) :: natDigitsRev fuel ((n + 1) / 10)

/-- Base-10 digits of `n`, least significant first (empty for `0`). -/
def natDigits (n : ℕ) : List ℕ := natDigitsRev n n

/-- Value of a least-significant-first digit list. -/
def digitsVal : List ℕ → ℕ
  | [] => 0
  | d :: t => d + 10 * digitsVal t

/-- Decimal numeral of `n`, as a character list (`"0"` for zero). -/
def natStr (n : ℕ) : List Char :=
  if n = 0 then ['0'] else ((natDigits n).map Nat.digitChar).reverse

/-- Unsigned fixed-point numeral `i.dd` for `a` hundredths: integer part,
`'.'`, and exactly two fraction digits. -/
def hundredthsBody (a : ℕ) : List Char :=
  natStr (a / 100) ++ '.' :: [Nat.digitChar (a % 100 / 10), Nat.digitChar (a % 100 % 10)]

/-- Character list of the fixed-point numeral `±i.dd` for the integer `n` of
hundredths: optional sign, then the unsigned numeral of `|n|` hundredths. -/
def hundredthsStr (n : ℤ) : List Char :=
  if n < 0 then '-' :: hundredthsBody n.natAbs else hundredthsBody n.natAbs

/-- Models Go's `fmt.Sprintf("%.2f", x)` over the exact-rational embedding:
the decimal numeral of `x` with exactly two fractional digits, correctly
rounded (ties to even), with a leading `-` for negative results.  This and
`parseDec` stand in for the Go standard library, which is outside `src/`. -/
def format2 (q : ℚ) : String :=
  ⟨hundredthsStr (roundHalfEven (q * 100))⟩

/-- Is `c` one of the characters `0`–`9`? -/
def isDigitChar (c : Char) : Bool := 48 ≤ c.toNat && c.toNat ≤ 57

/-- Parse a non-empty all-digit character list as a natural number. -/
def parseNatDigits (l : List Char) : Option ℕ :=
  if l ≠ [] ∧ ∀ c ∈ l, isDigitChar c then
    some (l.foldl (fun a c => 10 * a + (c.toNat - 48)) 0)
  else none

/-- Parse an unsigned decimal numeral, optionally with a fractional part. -/
def parseDecCore (l : List Char) : Option ℚ :=
  let ip := l.takeWhile (fun c => c != '.')
  match l.dropWhile (fun c => c != '.'), parseNatDigits ip with
  | [], some n => some (n : ℚ)
  | _ :: fp, some n =>
    match parseNatDigits fp with
    | some f => some ((n : ℚ) + (f : ℚ) / 10 ^ fp.length)
    | none => none
  | _, none => none

/-- Models Go's `strconv.ParseFloat` on the plain decimal numerals produced by
`format2`: optional sign, integer digits, optional fractional digits.  Returns
`none` where `ParseFloat` would return an error. -/
def parseDec (s : String) : Option ℚ :=
  match s.data with
  | [] => none
  | c :: t =>
    if c = '-' then (parseDecCore t).map (fun q => -q)
    else if c = '+' then parseDecCore t
    else parseDecCore (c :: t)

/-- The rounding step of `getVMs` (`src/main.go:171`–`174`):
`v, _ = strconv.ParseFloat(fmt.Sprintf("%.2f", v), 64)` — format to two
decimal places, parse the string back, and (as the code discards the error)
fall back to `0` on a parse failure. -/
def round2 (x : ℚ) : ℚ := (parseDec (format2 x)).getD 0

/-- Does a record survive the type filter of `getVMs` (`src/main.go:176`)?
True exactly for `res.Type == "qemu" || res.Type == "lxc"`. -/
def keepType (t : String) : Bool := t == "qemu" || t == "lxc"

/-- The body of the conversion loop of `getVMs` (`src/main.go:155`–`175`):
builds the outgoing record from a raw record, overwriting `UserID` with the
logged-in user id, dividing memory fields by `1024*1024` and disk fields by
`1024*1024*1024`, then rounding those four fields to two decimal places. -/
def convertVM (userID : String) (res : VMInfo) : VMInfo :=
  let vm : VMInfo :=
    { UserID := userID
      Name := res.Name
      VMID := res.VMID
      Type' := res.Type'
      Status := res.Status
      CPU := res.CPU
      MaxCPU := res.MaxCPU
      Mem := res.Mem / (1024 * 1024)
      MaxMem := res.MaxMem / (1024 * 1024)
      Disk := res.Disk / (1024 * 1024 * 1024)
      MaxDisk := res.MaxDisk / (1024 * 1024 * 1024) }
  { vm with
      Mem := round2 vm.Mem
      MaxMem := round2 vm.MaxMem
      Disk := round2 vm.Disk
      MaxDisk := round2 vm.MaxDisk }

/-- The accumulation loop of `getVMs` (`src/main.go:153`–`179`): starting from
`vms := make([]VMInfo, 0)`, convert each record and append it when its type is
`"qemu"` or `"lxc"`. -/
def getVMsList (userID : String) (resources : List VMInfo) : List VMInfo :=
  resources.foldl
    (fun vms res =>
      if keepType res.Type' then vms ++ [convertVM userID res] else vms)
    []

/-- Observable outcome of running `pvesh get /cluster/resources` and decoding
its standard output with `json.Unmarshal` (`src/main.go:138`–`149`).  The
subprocess and the JSON decoder are external to `src/`, so the environment is
modelled by the result they hand the program: a command-execution failure, a
decode failure, or the decoded record list. -/
inductive InventoryResult where
  | execFailure (msg : String)
  | parseFailure (msg : String)
  | parsed (resources : List VMInfo)
deriving DecidableEq, Repr

/-- Embeds `getVMs` (`src/main.go:136`–`187`) as a function of the inventory
outcome and the logged-in user id (the Go code reads the package-level
`userID`). -/
def getVMs (userID : String) (inv : InventoryResult) : Except String Response :=
  match inv with
  | .execFailure msg => .error ("failed to execute pvesh command: " ++ msg)
  | .parseFailure msg => .error ("failed to unmarshal JSON: " ++ msg)
  | .parsed resources => .ok { UserId := userID, Vms := getVMsList userID resources }

/-- Observable outcome of one outbound HTTP request made with `net/http`
(external to `src/`): a transport-level error, or a response with a status
code and a body. -/
inductive HTTPResult where
  | transportError (msg : String)
  | response (status : ℕ) (body : String)
deriving DecidableEq, Repr

/-- Embeds `sendToServer` (`src/main.go:190`–`214`) as a function of the HTTP
outcome.  `json.Marshal` of a `Response` value cannot fail, so the only error
sources are the transport and a non-200 status; the Go message interpolates
the textual status line, rendered here from the status code. -/
def sendToServer (vmList : Response) (http : HTTPResult) : Except String Unit :=
  match http with
  | .transportError msg => .error msg
  | .response status _ =>
    if status = 200 then .ok ()
    else .error ("received non-OK response: " ++ toString status)

/-- Observable outcome of decoding a login response body with
`encoding/json` (external to `src/`). -/
inductive BodyDecode where
  | ok (r : LoginResponse)
  | fail (msg : String)
deriving DecidableEq, Repr

/-- Observable outcome of the login POST (`http.Post`, external to `src/`):
transport error, or status code plus the decode outcome of the body. -/
inductive LoginHTTP where
  | transportError (msg : String)
  | response (status : ℕ) (body : BodyDecode)
deriving DecidableEq, Repr

/-- Embeds `login` (`src/main.go:106`–`133`): transport errors first, then the
status-code check, then body decoding, mirroring the order in the source. -/
def login (http : LoginHTTP) : Except String LoginResponse :=
  match http with
  | .transportError m => .error ("login request failed: " ++ m)
  | .response status body =>
    if status ≠ 200 then .error ("login failed with status code: " ++ toString status)
    else
      match body with
      | .fail m => .error ("failed to decode login response: " ++ m)
      | .ok r => .ok r

/-- Outcome of one scheduled tick (the closure registered with
`c.AddFunc` at `src/main.go:82`–`98`): the messages logged, the batch passed
to `sendToServer` when it was invoked, and the send outcome. -/
structure TickResult where
  logged : List String
  dispatched : Option Response
  sendResult : Option (Except String Unit)
deriving Repr

/-- Embeds the body of the cron closure (`src/main.go:82`–`98`): collect; on
failure log and return without dispatching; otherwise rebuild the `Response`
from the global `userID` and the collected list, send it, and log a send
failure. -/
def tick (userID : String) (inv : InventoryResult) (http : HTTPResult) : TickResult :=
  match getVMs userID inv with
  | .error e => ⟨["Error getting VM list: " ++ e], none, none⟩
  | .ok vmList =>
    let response : Response := { UserId := userID, Vms := vmList.Vms }
    match sendToServer response http with
    | .error e => ⟨["Error sending VM list to server: " ++ e], some response, some (.error e)⟩
    | .ok u => ⟨[], some response, some (.ok u)⟩

/-- A sequence of scheduled ticks: the cron job body runs once per firing,
each firing seeing its own inventory and HTTP outcome and sharing only the
read-only `userID` set at startup. -/
def runTicks (userID : String) (inputs : List (InventoryResult × HTTPResult)) :
    List TickResult :=
  inputs.map fun p => tick userID p.1 p.2

/-- State of the process after startup: `log.Fatalf` aborted it, or the cron
scheduler was registered with the logged-in user id. -/
inductive StartupState where
  | aborted (msg : String)
  | running (userID : String)
deriving DecidableEq, Repr

/-- Embeds the startup sequence of `main` (`src/main.go:73`–`99`): login,
abort via `log.Fatalf` on error, otherwise store `userID` and register the
cron job. -/
def startup (http : LoginHTTP) : StartupState :=
  match login http with
  | .error e => .aborted ("Error logging in: " ++ e)
  | .ok loginResp => .running loginResp.UserID

/-- Whole-process model: startup followed, only when startup succeeded, by the
scheduled ticks; an aborted startup registers no scheduler and runs no tick. -/
def runProcess (http : LoginHTTP) (inputs : List (InventoryResult × HTTPResult)) :
    StartupState × List TickResult :=
  match startup http with
  | .aborted m => (.aborted m, [])
  | .running userID => (.running userID, runTicks userID inputs)

/-- Concrete raw record used to instantiate theorems: a `"qemu"` record whose
raw memory field is `2147483648`. -/
def memSample : VMInfo :=
  { UserID := "stale", Name := "vm100", VMID := 100, Type' := "qemu",
    Status := "running", CPU := 1/2, MaxCPU := 4,
    Mem := 2147483648, MaxMem := 2147483648, Disk := 0, MaxDisk := 0 }

/-- Concrete raw record used to instantiate theorems: a record of a type that
the filter drops. -/
def nodeSample : VMInfo :=
  { UserID := "stale", Name := "pve", VMID := 0, Type' := "node",
    Status := "online", CPU := 0, MaxCPU := 8,
    Mem := 0, MaxMem := 0, Disk := 0, MaxDisk := 0 }

/-! ## Digit and numeral lemmas -/

theorem digitsVal_natDigitsRev (fuel : ℕ) :
    ∀ n, n ≤ fuel → digitsVal (natDigitsRev fuel n) = n := by
  induction fuel with
  | zero =>
    intro n hn
    interval_cases n
    rfl
  | succ f ih =>
    intro n hn
    match n with
    | 0 => rfl
    | m + 1 =>
      have hdiv : (m + 1) / 10 ≤ f := by
        have := Nat.div_lt_self (Nat.succ_pos m) (by norm_num : 1 < 10)
        omega
      show digitsVal (((m + 1) % 10) :: natDigitsRev f ((m + 1) / 10)) = m + 1
      rw [digitsVal, ih _ hdiv]
      omega

theorem digitsVal_natDigits (n : ℕ) : digitsVal (natDigits n) = n :=
  digitsVal_natDigitsRev n n le_rfl

theorem natDigitsRev_lt (fuel : ℕ) :
    ∀ n d, d ∈ natDigitsRev fuel n → d < 10 := by
  induction fuel with
  | zero =>
    intro n d hd
    simp [natDigitsRev] at hd
  | succ f ih =>
    intro n d hd
    match n with
    | 0 => simp [natDigitsRev] at hd
    | m + 1 =>
      rw [natDigitsRev] at hd
      rcases List.mem_cons.mp hd with h | h
      · subst h
        exact Nat.mod_lt _ (by norm_num)
      · exact ih _ _ h

theorem natDigits_lt (n d : ℕ) (hd : d ∈ natDigits n) : d < 10 :=
  natDigitsRev_lt n n d hd

theorem natDigits_ne_nil (n : ℕ) (hn : n ≠ 0) : natDigits n ≠ [] := by
  match n with
  | 0 => exact absurd rfl hn
  | m + 1 =>
    show ((m + 1) % 10) :: natDigitsRev m ((m + 1) / 10) ≠ []
    exact List.cons_ne_nil _ _

theorem digitChar_toNat (d : ℕ) (hd : d < 10) : (Nat.digitChar d).toNat = 48 + d := by
  interval_cases d <;> rfl

theorem isDigitChar_digitChar (d : ℕ) (hd : d < 10) :
    isDigitChar (Nat.digitChar d) = true := by
  simp only [isDigitChar, digitChar_toNat d hd]
  refine (Bool.and_eq_true _ _).mpr ⟨?_, ?_⟩ <;> [skip; skip] <;> (rw [decide_eq_true_iff]; omega)

theorem digitChar_decode (d : ℕ) (hd : d < 10) : (Nat.digitChar d).toNat - 48 = d := by
  rw [digitChar_toNat d hd]
  omega

theorem isDigitChar_ne_dot (c : Char) (hc : isDigitChar c = true) : (c != '.') = true := by
  rcases Bool.and_eq_true _ _ |>.mp hc with ⟨h1, _⟩
  rw [decide_eq_true_iff] at h1
  refine bne_iff_ne.mpr fun h => ?_
  subst h
  simp [Char.toNat, UInt32.size] at h1

theorem isDigitChar_ne_minus (c : Char) (hc : isDigitChar c = true) : c ≠ '-' := by
  rcases Bool.and_eq_true _ _ |>.mp hc with ⟨h1, _⟩
  rw [decide_eq_true_iff] at h1
  intro h
  subst h
  simp [Char.toNat, UInt32.size] at h1

theorem isDigitChar_ne_plus (c : Char) (hc : isDigitChar c = true) : c ≠ '+' := by
  rcases Bool.and_eq_true _ _ |>.mp hc with ⟨h1, _⟩
  rw [decide_eq_true_iff] at h1
  intro h
  subst h
  simp [Char.toNat, UInt32.size] at h1

theorem foldl_digitChars (ds : List ℕ) :
    ∀ acc : ℕ, (∀ d ∈ ds, d < 10) →
      ((ds.map Nat.digitChar).reverse).foldl (fun a c => 10 * a + (c.toNat - 48)) acc =
        acc * 10 ^ ds.length + digitsVal ds := by
  induction ds with
  | nil => intro acc _; simp [digitsVal]
  | cons d t ih =>
    intro acc hd
    have hd0 : d < 10 := hd d (List.mem_cons_self d t)
    have ht : ∀ x ∈ t, x < 10 := fun x hx => hd x (List.mem_cons_of_mem d hx)
    simp only [List.map_cons, List.reverse_cons, List.foldl_append, List.foldl_cons,
      List.foldl_nil, ih _ ht]
    rw [digitChar_decode d hd0, digitsVal, List.length_cons, pow_succ]
    ring

theorem mem_natStr_isDigit (n : ℕ) : ∀ c ∈ natStr n, isDigitChar c = true := by
  intro c hc
  rw [natStr] at hc
  by_cases hn : n = 0
  · rw [if_pos hn] at hc
    rcases List.mem_singleton.mp hc with rfl
    rfl
  · rw [if_neg hn] at hc
    rcases List.mem_map.mp (List.mem_reverse.mp hc) with ⟨d, hdm, rfl⟩
    exact isDigitChar_digitChar d (natDigits_lt n d hdm)

theorem parseNatDigits_natStr (n : ℕ) : parseNatDigits (natStr n) = some n := by
  by_cases hn : n = 0
  · subst hn; rfl
  · have hne : natStr n ≠ [] := by
      rw [natStr, if_neg hn]
      intro h
      rw [List.reverse_eq_nil_iff, List.map_eq_nil_iff] at h
      exact natDigits_ne_nil n hn h
    rw [parseNatDigits, if_pos ⟨hne, mem_natStr_isDigit n⟩]
    rw [natStr, if_neg hn]
    rw [foldl_digitChars (natDigits n) 0 (natDigits_lt n)]
    rw [digitsVal_natDigits]
    norm_num

theorem takeWhile_append_dot (l₁ l₂ : List Char)
    (h : ∀ c ∈ l₁, (c != '.') = true) :
    (l₁ ++ '.' :: l₂).takeWhile (fun c => c != '.') = l₁ := by
  induction l₁ with
  | nil => simp [List.takeWhile_cons]
  | cons c t ih =>
    have hc : (c != '.') = true := h c (List.mem_cons_self c t)
    simp only [List.cons_append, List.takeWhile_cons, hc, if_true]
    rw [ih fun x hx => h x (List.mem_cons_of_mem c hx)]

theorem dropWhile_append_dot (l₁ l₂ : List Char)
    (h : ∀ c ∈ l₁, (c != '.') = true) :
    (l₁ ++ '.' :: l₂).dropWhile (fun c => c != '.') = '.' :: l₂ := by
  induction l₁ with
  | nil => simp [List.dropWhile_cons]
  | cons c t ih =>
    have hc : (c != '.') = true := h c (List.mem_cons_self c t)
    simp only [List.cons_append, List.dropWhile_cons, hc, if_true]
    exact ih fun x hx => h x (List.mem_cons_of_mem c hx)

theorem parseNatDigits_two (f : ℕ) (hf : f < 100) :
    parseNatDigits [Nat.digitChar (f / 10), Nat.digitChar (f % 10)] = some f := by
  have h1 : f / 10 < 10 := by omega
  have h2 : f % 10 < 10 := Nat.mod_lt _ (by norm_num)
  have hd : ∀ c ∈ [Nat.digitChar (f / 10), Nat.digitChar (f % 10)], isDigitChar c = true := by
    intro c hc
    rcases List.mem_cons.mp hc with rfl | hc
    · exact isDigitChar_digitChar _ h1
    · rcases List.mem_singleton.mp hc with rfl
      exact isDigitChar_digitChar _ h2
  rw [parseNatDigits, if_pos ⟨List.cons_ne_nil _ _, hd⟩]
  simp only [List.foldl_cons, List.foldl_nil]
  rw [digitChar_decode _ h1, digitChar_decode _ h2]
  congr 1
  omega

theorem parseDecCore_numeral (i f : ℕ) (hf : f < 100) :
    parseDecCore (natStr i ++ '.' :: [Nat.digitChar (f / 10), Nat.digitChar (f % 10)]) =
      some ((i : ℚ) + (f : ℚ) / 100) := by
  have hdig : ∀ c ∈ natStr i, (c != '.') = true :=
    fun c hc => isDigitChar_ne_dot c (mem_natStr_isDigit i c hc)
  rw [parseDecCore]
  simp only [takeWhile_append_dot _ _ hdig, dropWhile_append_dot _ _ hdig,
    parseNatDigits_natStr i, parseNatDigits_two f hf]
  norm_num

theorem natStr_head (m : ℕ) : ∃ c t, natStr m = c :: t ∧ isDigitChar c = true := by
  rcases h : natStr m with _ | ⟨c, t⟩
  · exfalso
    by_cases hm : m = 0
    · rw [hm] at h
      exact List.cons_ne_nil _ _ h
    · rw [natStr, if_neg hm, List.reverse_eq_nil_iff, List.map_eq_nil_iff] at h
      exact natDigits_ne_nil m hm h
  · exact ⟨c, t, rfl, mem_natStr_isDigit m c (h ▸ List.mem_cons_self c t)⟩

theorem parseDec_cons (c : Char) (t : List Char) :
    parseDec ⟨c :: t⟩ =
      if c = '-' then (parseDecCore t).map (fun q => -q)
      else if c = '+' then parseDecCore t
      else parseDecCore (c :: t) := rfl

theorem parseDecCore_hundredthsBody (a : ℕ) :
    parseDecCore (hundredthsBody a) = some ((a : ℚ) / 100) := by
  have hf : a % 100 < 100 := Nat.mod_lt _ (by norm_num)
  rw [hundredthsBody, parseDecCore_numeral _ _ hf]
  congr 1
  have h100 : 100 * (a / 100) + a % 100 = a := Nat.div_add_mod _ _
  have hq := congrArg (fun k : ℕ => (k : ℚ)) h100
  push_cast at hq
  linarith

theorem parseDec_hundredths (n : ℤ) :
    parseDec ⟨hundredthsStr n⟩ = some ((n : ℚ) / 100) := by
  by_cases hn : n < 0
  · rw [hundredthsStr, if_pos hn, parseDec_cons, if_pos rfl,
      parseDecCore_hundredthsBody, Option.map_some']
    congr 1
    have h1 : (n.natAbs : ℤ) = -n := by omega
    have h2 : ((n.natAbs : ℕ) : ℚ) = -(n : ℚ) := by
      rw [← Int.cast_natCast (R := ℚ), h1, Int.cast_neg]
    rw [h2]
    ring
  · rw [hundredthsStr, if_neg hn]
    obtain ⟨c, t, hct, hdc⟩ := natStr_head (n.natAbs / 100)
    have hbody : hundredthsBody n.natAbs =
        c :: (t ++ '.' :: [Nat.digitChar (n.natAbs % 100 / 10),
          Nat.digitChar (n.natAbs % 100 % 10)]) := by
      rw [hundredthsBody, hct, List.cons_append]
    rw [hbody, parseDec_cons, if_neg (isDigitChar_ne_minus c hdc),
      if_neg (isDigitChar_ne_plus c hdc), ← List.cons_append, ← hct, ← hundredthsBody,
      parseDecCore_hundredthsBody]
    congr 1
    have h1 : (n.natAbs : ℤ) = n := by omega
    have h2 : ((n.natAbs : ℕ) : ℚ) = (n : ℚ) := by
      rw [← Int.cast_natCast (R := ℚ), h1]
    rw [h2]

theorem parse_format2 (q : ℚ) :
    parseDec (format2 q) = some ((roundHalfEven (q * 100) : ℚ) / 100) := by
  rw [format2, parseDec_hundredths]

theorem round2_eq (q : ℚ) :
    round2 q = (roundHalfEven (q * 100) : ℚ) / 100 := by
  rw [round2, parse_format2]
  rfl

theorem roundHalfEven_intCast (m : ℤ) : roundHalfEven (m : ℚ) = m := by
  rw [roundHalfEven]
  simp only [Int.floor_intCast]
  norm_num

theorem round2_hundredths (m : ℤ) : round2 ((m : ℚ) / 100) = (m : ℚ) / 100 := by
  rw [round2_eq]
  have h : ((m : ℚ) / 100) * 100 = (m : ℚ) := by field_simp
  rw [h, roundHalfEven_intCast]

theorem round2_int (m : ℤ) : round2 (m : ℚ) = (m : ℚ) := by
  have h : ((100 * m : ℤ) : ℚ) / 100 = (m : ℚ) := by push_cast; field_simp
  have := round2_hundredths (100 * m)
  rw [h] at this
  exact this

/-! ## Collector and scheduler lemmas -/

theorem getVMsList_eq (userID : String) (resources : List VMInfo) :
    getVMsList userID resources =
      (resources.filter fun r => keepType r.Type').map (convertVM userID) := by
  have aux : ∀ (l : List VMInfo) (acc : List VMInfo),
      l.foldl (fun vms res =>
          if keepType res.Type' then vms ++ [convertVM userID res] else vms) acc =
        acc ++ (l.filter fun r => keepType r.Type').map (convertVM userID) := by
    intro l
    induction l with
    | nil => intro acc; simp
    | cons d t ih =>
      intro acc
      rw [List.foldl_cons, List.filter_cons]
      by_cases h : keepType d.Type'
      · rw [if_pos h, ih, if_pos h]
        simp
      · rw [if_neg h, ih, if_neg h]
  rw [getVMsList, aux resources []]
  rfl

theorem runTicks_append (userID : String) (pre post : List (InventoryResult × HTTPResult))
    (x : InventoryResult × HTTPResult) :
    runTicks userID (pre ++ x :: post) =
      runTicks userID pre ++ tick userID x.1 x.2 :: runTicks userID post := by
  simp [runTicks]

theorem tick_of_error (userID : String) (inv : InventoryResult) (http : HTTPResult)
    (e : String) (h : getVMs userID inv = Except.error e) :
    tick userID inv http = ⟨["Error getting VM list: " ++ e], none, none⟩ := by
  simp [tick, h]

theorem tick_dispatched_of_ok (userID : String) (inv : InventoryResult) (http : HTTPResult)
    (r : Response) (h : getVMs userID inv = Except.ok r) :
    (tick userID inv http).dispatched = some { UserId := userID, Vms := r.Vms } := by
  simp only [tick, h]
  cases sendToServer { UserId := userID, Vms := r.Vms } http <;> rfl

/-! ## Claim theorems -/

/-- C1: for every raw resource record, the normalized record's memory fields
equal the raw `mem`/`maxmem` values divided by `1024*1024` and the disk fields
equal the raw `disk`/`maxdisk` values divided by `1024*1024*1024`, each then
rounded to two decimal places with the textual semantic: format the quotient
to two decimal places and parse the string back (and that textual rounding is
exactly rounding to the nearest hundredth). -/
theorem getVMs_unit_conversion :
    ∀ (userID : String) (res : VMInfo),
      (convertVM userID res).Mem =
        (parseDec (format2 (res.Mem / (1024 * 1024)))).getD 0 ∧
      (convertVM userID res).MaxMem =
        (parseDec (format2 (res.MaxMem / (1024 * 1024)))).getD 0 ∧
      (convertVM userID res).Disk =
        (parseDec (format2 (res.Disk / (1024 * 1024 * 1024)))).getD 0 ∧
      (convertVM userID res).MaxDisk =
        (parseDec (format2 (res.MaxDisk / (1024 * 1024 * 1024)))).getD 0 ∧
      ∀ x : ℚ, (parseDec (format2 x)).getD 0 = (roundHalfEven (x * 100) : ℚ) / 100 := by
  intro userID res
  exact ⟨rfl, rfl, rfl, rfl, fun x => round2_eq x⟩

/-- C2: the collected batch is exactly the `"qemu"`/`"lxc"` records of the raw
list, one converted record per surviving raw record, in the same relative
order — collected list = map of the filtered list. -/
theorem getVMs_filter_map_order :
    ∀ (userID : String) (resources : List VMInfo),
      getVMsList userID resources =
        (resources.filter fun r => keepType r.Type').map (convertVM userID) ∧
      (getVMsList userID resources).length =
        (resources.filter fun r => keepType r.Type').length := by
  intro userID resources
  refine ⟨getVMsList_eq userID resources, ?_⟩
  rw [getVMsList_eq, List.length_map]

/-- C7: the two-decimal rounding is idempotent — formatting a value already
produced by the format-then-reparse step and reparsing it yields the same
value again. -/
theorem round2_roundtrip_stable :
    ∀ x : ℚ, parseDec (format2 (round2 x)) = some (round2 x) := by
  intro x
  rw [round2_eq, parse_format2]
  congr 1
  have h : ((roundHalfEven (x * 100) : ℚ) / 100) * 100 = (roundHalfEven (x * 100) : ℚ) := by
    field_simp
  rw [h, roundHalfEven_intCast]

/-- C6 counterexample: the raw record `memSample` has memory value
`2147483648`, and the conversion yields `2048`, not `2.00` as the claim
states. -/
theorem convert_mem_counterexample :
    (convertVM "u" memSample).Mem = 2048 ∧ (convertVM "u" memSample).Mem ≠ 2 := by
  have h1 : (convertVM "u" memSample).Mem = round2 (2147483648 / (1024 * 1024) : ℚ) := rfl
  have h2 : (2147483648 / (1024 * 1024) : ℚ) = ((2048 : ℤ) : ℚ) := by norm_num
  have h3 : (convertVM "u" memSample).Mem = 2048 := by
    rw [h1, h2, round2_int]
    norm_num
  refine ⟨h3, ?_⟩
  rw [h3]
  norm_num

/-- C6 (amended): for a raw record with memory value `2147483648`, the
normalized memory value produced by the conversion (divide by `1024*1024`,
round to two decimals) is `2048.00`. -/
theorem convert_mem_2147483648 :
    ∀ (userID : String) (res : VMInfo), res.Mem = 2147483648 →
      (convertVM userID res).Mem = 2048 := by
  intro userID res h
  have h1 : (convertVM userID res).Mem = round2 (res.Mem / (1024 * 1024)) := rfl
  rw [h1, h]
  have h2 : (2147483648 / (1024 * 1024) : ℚ) = ((2048 : ℤ) : ℚ) := by norm_num
  rw [h2, round2_int]
  norm_num

/-- C6 witness: the amended theorem applied to the concrete record
`memSample`. -/
theorem convert_mem_2147483648_witness :
    memSample.Mem = 2147483648 ∧ (convertVM "west" memSample).Mem = 2048 :=
  ⟨rfl, convert_mem_2147483648 "west" memSample rfl⟩

/-- C3: login returns an identity exactly when the HTTP status is 200 and the
body decodes; a transport error, a non-200 status, or a decode failure each
return an error, and a login error aborts startup — no scheduler is
registered and no tick (hence no collection) runs. -/
theorem login_startup_spec :
    ∀ http : LoginHTTP,
      (∀ r, login http = Except.ok r ↔ http = LoginHTTP.response 200 (BodyDecode.ok r)) ∧
      (∀ m, login (LoginHTTP.transportError m) =
        Except.error ("login request failed: " ++ m)) ∧
      (∀ s bd, s ≠ 200 → login (LoginHTTP.response s bd) =
        Except.error ("login failed with status code: " ++ toString s)) ∧
      (∀ m, login (LoginHTTP.response 200 (BodyDecode.fail m)) =
        Except.error ("failed to decode login response: " ++ m)) ∧
      (∀ e inputs, login http = Except.error e →
        runProcess http inputs = (StartupState.aborted ("Error logging in: " ++ e), [])) := by
  intro http
  refine ⟨?_, fun m => rfl, ?_, fun m => rfl, ?_⟩
  · intro r
    constructor
    · intro h
      cases http with
      | transportError m => simp [login] at h
      | response s bd =>
        by_cases hs : s = 200
        · subst hs
          cases bd with
          | fail m => simp [login] at h
          | ok r0 =>
            simp only [login] at h
            rw [if_neg (by simp)] at h
            injection h with h2
            subst h2
            rfl
        · simp [login, hs] at h
    · intro h
      subst h
      simp [login]
  · intro s bd hs
    simp [login, hs]
  · intro e inputs h
    simp [runProcess, startup, h]

/-- C3 witness: a login endpoint answering 401 yields an error, and startup
aborts with no tick run. -/
theorem login_startup_witness :
    login (LoginHTTP.response 401 (BodyDecode.fail "bad")) =
      Except.error ("login failed with status code: " ++ toString 401) ∧
    runProcess (LoginHTTP.response 401 (BodyDecode.fail "bad")) [] =
      (StartupState.aborted ("Error logging in: " ++ ("login failed with status code: " ++ toString 401)), []) := by
  refine ⟨(login_startup_spec (LoginHTTP.response 401 (BodyDecode.fail "bad"))).2.2.1 401
    (BodyDecode.fail "bad") (by decide), ?_⟩
  exact (login_startup_spec (LoginHTTP.response 401 (BodyDecode.fail "bad"))).2.2.2.2 _ []
    (by rfl)

/-- C4: when collection fails in a tick, the dispatcher is never invoked in
that tick, the error is the only thing logged, and the tick's outcome inside
any schedule is a function of that tick's own inputs only, leaving every other
tick unaffected. -/
theorem tick_collection_failure_isolated :
    ∀ (userID : String) (inv : InventoryResult) (http : HTTPResult) (e : String),
      getVMs userID inv = Except.error e →
      (tick userID inv http).dispatched = none ∧
      (tick userID inv http).sendResult = none ∧
      (tick userID inv http).logged = ["Error getting VM list: " ++ e] ∧
      ∀ pre post, runTicks userID (pre ++ (inv, http) :: post) =
        runTicks userID pre ++ tick userID inv http :: runTicks userID post := by
  intro userID inv http e h
  have ht := tick_of_error userID inv http e h
  exact ⟨by rw [ht], by rw [ht], by rw [ht], fun pre post => runTicks_append userID pre post (inv, http)⟩

/-- C4 witness: a failing inventory command in the middle tick of a
three-tick schedule. -/
theorem tick_isolation_witness :
    (tick "u" (InventoryResult.execFailure "boom") (HTTPResult.response 200 "")).dispatched = none ∧
    (tick "u" (InventoryResult.execFailure "boom") (HTTPResult.response 200 "")).logged =
      ["Error getting VM list: " ++ ("failed to execute pvesh command: " ++ "boom")] ∧
    runTicks "u" ([(InventoryResult.parseFailure "x", HTTPResult.response 200 "")] ++
        (InventoryResult.execFailure "boom", HTTPResult.response 200 "") ::
        [(InventoryResult.parseFailure "y", HTTPResult.response 200 "")]) =
      runTicks "u" [(InventoryResult.parseFailure "x", HTTPResult.response 200 "")] ++
        tick "u" (InventoryResult.execFailure "boom") (HTTPResult.response 200 "") ::
        runTicks "u" [(InventoryResult.parseFailure "y", HTTPResult.response 200 "")] := by
  have h := tick_collection_failure_isolated "u" (InventoryResult.execFailure "boom")
    (HTTPResult.response 200 "") ("failed to execute pvesh command: " ++ "boom") (by rfl)
  exact ⟨h.1, h.2.2.1, h.2.2.2 _ _⟩

/-- C5: dispatching a batch succeeds exactly when the POST receives status
200; a transport error is returned as-is and a non-200 status yields an error
carrying the status; such an error is logged by the tick and leaves every
other tick of the schedule unchanged. -/
theorem sendToServer_spec :
    ∀ (vmList : Response) (http : HTTPResult),
      (sendToServer vmList http = Except.ok () ↔
        ∃ body, http = HTTPResult.response 200 body) ∧
      (∀ m, sendToServer vmList (HTTPResult.transportError m) = Except.error m) ∧
      (∀ s body, s ≠ 200 → sendToServer vmList (HTTPResult.response s body) =
        Except.error ("received non-OK response: " ++ toString s)) ∧
      (∀ userID inv e, getVMs userID inv = Except.ok vmList →
        sendToServer { UserId := userID, Vms := vmList.Vms } http = Except.error e →
        (tick userID inv http).logged = ["Error sending VM list to server: " ++ e] ∧
        (tick userID inv http).sendResult = some (Except.error e) ∧
        ∀ pre post, runTicks userID (pre ++ (inv, http) :: post) =
          runTicks userID pre ++ tick userID inv http :: runTicks userID post) := by
  intro vmList http
  refine ⟨?_, fun m => rfl, ?_, ?_⟩
  · cases http with
    | transportError m => simp [sendToServer]
    | response s b =>
      by_cases hs : s = 200
      · subst hs
        simp [sendToServer]
      · simp [sendToServer, hs]
  · intro s b hs
    simp [sendToServer, hs]
  · intro userID inv e hok herr
    have ht : tick userID inv http =
        ⟨["Error sending VM list to server: " ++ e],
          some { UserId := userID, Vms := vmList.Vms }, some (Except.error e)⟩ := by
      simp only [tick, hok]
      rw [herr]
    exact ⟨by rw [ht], by rw [ht],
      fun pre post => runTicks_append userID pre post (inv, http)⟩

/-- C5 witness: a 500 response on the report endpoint is an error carrying
the status, and the tick only logs it. -/
theorem sendToServer_witness :
    (sendToServer { UserId := "u", Vms := [] } (HTTPResult.response 500 "oops") = Except.ok () ↔
      ∃ body, HTTPResult.response 500 "oops" = HTTPResult.response 200 body) ∧
    sendToServer { UserId := "u", Vms := [] } (HTTPResult.response 500 "oops") =
      Except.error ("received non-OK response: " ++ toString 500) ∧
    (tick "u" (InventoryResult.parsed []) (HTTPResult.response 500 "oops")).logged =
      ["Error sending VM list to server: " ++ ("received non-OK response: " ++ toString 500)] := by
  refine ⟨(sendToServer_spec { UserId := "u", Vms := [] } (HTTPResult.response 500 "oops")).1,
    (sendToServer_spec { UserId := "u", Vms := [] } (HTTPResult.response 500 "oops")).2.2.1 500
      "oops" (by decide), ?_⟩
  exact ((sendToServer_spec { UserId := "u", Vms := [] } (HTTPResult.response 500 "oops")).2.2.2
    "u" (InventoryResult.parsed []) ("received non-OK response: " ++ toString 500)
    (by rfl) (by rfl)).1

/-- C8: every successfully collected batch is tagged with the logged-in user
id, every record in it carries that same user id (whatever user id the raw
records carried), and startup propagates exactly the user id of the login
response into the running state. -/
theorem getVMs_userID_tagging :
    ∀ (userID : String) (resources : List VMInfo),
      getVMs userID (InventoryResult.parsed resources) =
        Except.ok { UserId := userID, Vms := getVMsList userID resources } ∧
      (getVMsList userID resources).all (fun vm => vm.UserID == userID) = true ∧
      (∀ res : VMInfo, (convertVM userID res).UserID = userID) ∧
      (∀ http lr, login http = Except.ok lr →
        startup http = StartupState.running lr.UserID) := by
  intro userID resources
  refine ⟨rfl, ?_, fun res => rfl, ?_⟩
  · rw [List.all_eq_true]
    intro vm hvm
    rw [getVMsList_eq] at hvm
    rcases List.mem_map.mp hvm with ⟨r, hr, rfl⟩
    simp [convertVM]
  · intro http lr h
    simp [startup, h]

/-- C8 witness: the tagging theorem applied to a concrete record list whose
raw user id field is stale, and to a concrete successful login. -/
theorem getVMs_userID_tagging_witness :
    getVMs "fresh" (InventoryResult.parsed [memSample]) =
      Except.ok { UserId := "fresh", Vms := getVMsList "fresh" [memSample] } ∧
    (getVMsList "fresh" [memSample]).all (fun vm => vm.UserID == "fresh") = true ∧
    startup (LoginHTTP.response 200 (BodyDecode.ok ⟨"fresh", "at", "rt"⟩)) =
      StartupState.running "fresh" := by
  refine ⟨(getVMs_userID_tagging "fresh" [memSample]).1,
    (getVMs_userID_tagging "fresh" [memSample]).2.1, ?_⟩
  exact (getVMs_userID_tagging "fresh" [memSample]).2.2.2
    (LoginHTTP.response 200 (BodyDecode.ok ⟨"fresh", "at", "rt"⟩)) ⟨"fresh", "at", "rt"⟩ rfl

/-- C9: when the parsed inventory contains no `"qemu"` or `"lxc"` record
(including the empty array), collection still succeeds with an empty record
list and the tick still hands the dispatcher a report with an empty `vms`
array. -/
theorem empty_inventory_still_dispatches :
    ∀ (userID : String) (resources : List VMInfo) (http : HTTPResult),
      (∀ r ∈ resources, keepType r.Type' = false) →
      getVMs userID (InventoryResult.parsed resources) =
        Except.ok { UserId := userID, Vms := [] } ∧
      (tick userID (InventoryResult.parsed resources) http).dispatched =
        some { UserId := userID, Vms := [] } := by
  intro userID resources http hall
  have hfil : resources.filter (fun r => keepType r.Type') = [] := by
    rw [List.filter_eq_nil]
    intro a ha
    rw [hall a ha]
    exact Bool.false_ne_true
  have hnil : getVMsList userID resources = [] := by
    rw [getVMsList_eq, hfil]
    rfl
  have hok : getVMs userID (InventoryResult.parsed resources) =
      Except.ok { UserId := userID, Vms := [] } := by
    simp [getVMs, hnil]
  exact ⟨hok, tick_dispatched_of_ok userID (InventoryResult.parsed resources) http _ hok⟩

/-- C9 witness: a single `"node"` record survives nothing; the dispatcher
still receives the empty batch. -/
theorem empty_inventory_witness :
    getVMs "u" (InventoryResult.parsed [nodeSample]) =
      Except.ok { UserId := "u", Vms := [] } ∧
    (tick "u" (InventoryResult.parsed [nodeSample]) (HTTPResult.transportError "down")).dispatched =
      some { UserId := "u", Vms := [] } :=
  empty_inventory_still_dispatches "u" [nodeSample] (HTTPResult.transportError "down")
    (fun r hr => by rcases List.mem_singleton.mp hr with rfl; rfl)
